import Mathlib

/-!
Verification development for the zbus repository.

Part 1 embeds the code generator `zbus_xmlgen/src/lib.rs` (signature
complexity estimation, Rust type rendering, identifier mangling, and the
client-stub text emitted for methods and properties).

Part 2 models, from the specification, the connection-core components whose
implementation is exercised only through the integration tests in
`zbus/tests/issues.rs`: the serial registry, the dispatch loop, the
concurrent object server, the server-side handshake FD buffering, the
name-ownership tracker, and the property invalidate/changed notification
discipline.
-/

/-- `u32` modulus: the generator's complexity score is a Rust `u32`, so every
arithmetic step is taken modulo `2 ^ 32` (release-mode wrapping). -/
def M32 : Nat := 4294967296

/-- Embeds `zvariant::Signature` as used by `zbus_xmlgen/src/lib.rs`
(the match arms of `to_rust_type` and `estimate_type_complexity`).
`struct` stands for `Signature::Structure`, `dict` for `Signature::Dict`. -/
inductive Signature where
  | unit
  | u8
  | bool
  | i16
  | u16
  | i32
  | u32
  | i64
  | u64
  | f64
  | fd
  | str
  | objectPath
  | signature
  | variant
  | array (child : Signature)
  | dict (key : Signature) (value : Signature)
  | struct (fields : List Signature)

mutual

/-- Embeds `estimate_type_complexity` from `zbus_xmlgen/src/lib.rs`
lines 430-465.  The accumulator `score` is a `u32`; each `+=`/`*=` is
modelled with an explicit `% M32`.  In the `Dict` arm the source executes
`score *= 10 + 50` (i.e. `score = score * 60`) while `score` is still `0`,
then adds `5 *` the key and value complexities. -/
def estimate_type_complexity : Signature → Nat
  | .unit => 0
  | .u8 => 1
  | .bool => 1
  | .i16 => 1
  | .u16 => 1
  | .i32 => 1
  | .u32 => 1
  | .i64 => 1
  | .u64 => 1
  | .f64 => 1
  | .str => 1
  | .fd => 10
  | .objectPath => 10
  | .signature => 10
  | .variant => 10
  | .array child => (5 * estimate_type_complexity child) % M32
  | .dict key value =>
      let score := (0 * (10 + 50)) % M32
      let score := (score + (5 * estimate_type_complexity key) % M32) % M32
      let score := (score + (5 * estimate_type_complexity value) % M32) % M32
      score
  | .struct fields => estimate_fields fields ((0 + 50) % M32)

/-- The `Structure` arm's field loop: `score += 5 * estimate_type_complexity(field)`
for each field, with `u32` wrapping. -/
def estimate_fields : List Signature → Nat → Nat
  | [], score => score
  | f :: rest, score =>
      estimate_fields rest ((score + (5 * estimate_type_complexity f) % M32) % M32)

end

/-- Claim C10: for every dictionary signature, `estimate_type_complexity`
returns exactly 5 times the key complexity plus 5 times the value
complexity (as a `u32`): the `score *= 10 + 50` step multiplies an
accumulator that is still zero, so a dictionary contributes no base weight
of its own. -/
theorem estimate_type_complexity_dict (key value : Signature) :
    estimate_type_complexity (Signature.dict key value) =
      (5 * estimate_type_complexity key + 5 * estimate_type_complexity value) % M32 := by
  show ((((0 * (10 + 50)) % M32 + (5 * estimate_type_complexity key) % M32) % M32 +
      (5 * estimate_type_complexity value) % M32) % M32) = _
  simp only [M32]
  omega

/-- The character `-` (0x2d), written via `Char.ofNat` so that character
constants stay uniform across the file. -/
def dashChar : Char := Char.ofNat 45

/-- The character `_` (0x5f). -/
def underscoreChar : Char := Char.ofNat 95

/-- The character `(` (0x28). -/
def lparenChar : Char := Char.ofNat 40

/-- Embeds the `KWORDS` table from `zbus_xmlgen/src/lib.rs` lines 397-403:
the Rust keywords that `to_identifier` must not emit verbatim. -/
def KWORDS : List String :=
  ["Self", "abstract", "as", "async", "await", "become", "box", "break", "const",
   "continue", "crate", "do", "dyn", "else", "enum", "extern", "false", "final",
   "fn", "for", "if", "impl", "in", "let", "loop", "macro", "match", "mod", "move",
   "mut", "override", "priv", "pub", "ref", "return", "self", "static", "struct",
   "super", "trait", "true", "try", "type", "typeof", "union", "unsafe", "unsized",
   "use", "virtual", "where", "while", "yield"]

/-- Embeds Rust's `id.replace('-', "_")` for a single-character pattern:
every `-` in the string becomes `_`, character by character. -/
def rustReplaceDash (s : String) : String :=
  ⟨s.data.map (fun c => if c = dashChar then underscoreChar else c)⟩

/-- Embeds `to_identifier` from `zbus_xmlgen/src/lib.rs` lines 405-411. -/
def to_identifier (id : String) : String :=
  if KWORDS.contains id then id ++ "_" else rustReplaceDash id

/-- String append concatenates the underlying character lists. -/
theorem string_data_append (s t : String) : (s ++ t).data = s.data ++ t.data := rfl

/-- No entry of `KWORDS` contains an underscore or a dash. -/
theorem kwords_chars : ∀ k ∈ KWORDS, underscoreChar ∉ k.data ∧ dashChar ∉ k.data := by
  decide

/-- Claim C9: `to_identifier` appends a trailing underscore to each listed Rust
keyword, replaces every dash by an underscore in any other string, and its
result never collides with a Rust keyword. -/
theorem to_identifier_spec (s : String) :
    (s ∈ KWORDS → to_identifier s = s ++ "_") ∧
    (s ∉ KWORDS → to_identifier s = rustReplaceDash s) ∧
    to_identifier s ∉ KWORDS := by
  refine ⟨fun h => ?_, fun h => ?_, ?_⟩
  · simp [to_identifier, List.elem_iff, h]
  · simp [to_identifier, List.elem_iff, h]
  · by_cases h : s ∈ KWORDS
    · have he : to_identifier s = s ++ "_" := by
        simp [to_identifier, List.elem_iff, h]
      rw [he]
      intro hmem
      refine (kwords_chars _ hmem).1 ?_
      rw [string_data_append]
      have hu : "_".data = [underscoreChar] := by decide
      rw [hu]
      exact List.mem_append_right _ (List.mem_singleton.mpr rfl)
    · have he : to_identifier s = rustReplaceDash s := by
        simp [to_identifier, List.elem_iff, h]
      rw [he]
      intro hmem
      by_cases hd : dashChar ∈ s.data
      · refine (kwords_chars _ hmem).1 ?_
        show underscoreChar ∈ (rustReplaceDash s).data
        simp only [rustReplaceDash]
        exact List.mem_map.mpr ⟨dashChar, hd, by simp⟩
      · refine h ?_
        have hid : rustReplaceDash s = s := by
          apply String.ext
          show s.data.map _ = s.data
          have h1 : s.data.map (fun c => if c = dashChar then underscoreChar else c) =
              s.data.map id := by
            refine List.map_congr_left (fun c hc => ?_)
            simp only [id]
            rw [if_neg ?_]
            intro hcc
            exact hd (hcc ▸ hc)
          rw [h1, List.map_id]
        rw [hid] at hmem
        exact hmem

/-- Witness for C9: a keyword gains a trailing underscore, a dashed name has
its dashes replaced. -/
theorem to_identifier_spec_witness :
    ("match" ∈ KWORDS ∧ to_identifier "match" = "match" ++ "_") ∧
    ("foo-bar" ∉ KWORDS ∧ to_identifier "foo-bar" = rustReplaceDash "foo-bar") :=
  ⟨⟨by decide, (to_identifier_spec "match").1 (by decide)⟩,
   ⟨by decide, (to_identifier_spec "foo-bar").2.1 (by decide)⟩⟩

/-- True exactly for ASCII lowercase letters, as Rust's
`u8::is_ascii_lowercase`. -/
def isAsciiLower (c : Char) : Bool := 97 ≤ c.toNat && c.toNat ≤ 122

/-- True exactly for ASCII uppercase letters. -/
def isAsciiUpper (c : Char) : Bool := 65 ≤ c.toNat && c.toNat ≤ 90

/-- Rust's `char::to_ascii_uppercase`: uppercase ASCII letters, identity on
everything else. -/
def asciiUpperChar (c : Char) : Char :=
  if isAsciiLower c then Char.ofNat (c.toNat - 32) else c

/-- Rust's `char::to_ascii_lowercase`. -/
def asciiLowerChar (c : Char) : Char :=
  if isAsciiUpper c then Char.ofNat (c.toNat + 32) else c

/-- Embeds `pascal_case` from `zbus_xmlgen/src/lib.rs` lines 414-428: drop
underscores and uppercase the character following each one (and the first). -/
def pascal_case (s : String) : String :=
  ⟨(s.data.foldl
      (fun (st : List Char × Bool) ch =>
        if ch = underscoreChar then (st.1, true)
        else if st.2 then (st.1 ++ [asciiUpperChar ch], false)
        else (st.1 ++ [ch], false))
      ([], true)).1⟩

/-- Modelled from the spec: the external `snakecase` collaborator
(`to_snakecase`, from the `snakecase` crate, not part of this repository)
used by the code-generation collaborator of section 6 to derive method and
property identifiers.  Modelled as plain ASCII snake-casing: an underscore is
inserted before each interior uppercase letter and all letters are lowered.
No claim depends on its exact output. -/
def to_snakecase (s : String) : String :=
  ⟨s.data.foldl
      (fun acc c =>
        if isAsciiUpper c then
          if acc.isEmpty then acc ++ [asciiLowerChar c]
          else acc ++ [underscoreChar, asciiLowerChar c]
        else acc ++ [c])
      []⟩

mutual

/-- Embeds `to_rust_type` (`signature_to_rust_type`) from
`zbus_xmlgen/src/lib.rs` lines 319-395.  The `input` and `as_ref` flags are
passed through the recursion unchanged, exactly as in the source.  The
`Structure` arm of the source indexes `fields[0]` (panicking on an empty
field list); the embedding uses `headD ""` there, a case no signature
produced by the parser exercises. -/
def to_rust_type : Signature → Bool → Bool → String
  | .unit, _, _ => ""
  | .u8, _, _ => "u8"
  | .bool, _, _ => "bool"
  | .i16, _, _ => "i16"
  | .u16, _, _ => "u16"
  | .i32, _, _ => "i32"
  | .u32, _, _ => "u32"
  | .i64, _, _ => "i64"
  | .u64, _, _ => "u64"
  | .f64, _, _ => "f64"
  | .fd, input, _ =>
      if input then "zbus::zvariant::Fd<\x27_>" else "zbus::zvariant::OwnedFd"
  | .str, input, as_ref => if input || as_ref then "&str" else "String"
  | .objectPath, input, as_ref =>
      if input then
        if as_ref then "&zbus::zvariant::ObjectPath<\x27_>"
        else "zbus::zvariant::ObjectPath<\x27_>"
      else "zbus::zvariant::OwnedObjectPath"
  | .signature, input, as_ref =>
      if input then
        if as_ref then "&zbus::zvariant::Signature<\x27_>"
        else "zbus::zvariant::Signature<\x27_>"
      else "zbus::zvariant::OwnedSignature"
  | .variant, input, as_ref =>
      if input then
        if as_ref then "&zbus::zvariant::Value<\x27_>"
        else "zbus::zvariant::Value<\x27_>"
      else "zbus::zvariant::OwnedValue"
  | .array child, input, as_ref =>
      let child_ty := to_rust_type child input as_ref
      if input && as_ref then "&[" ++ child_ty ++ "]"
      else "Vec<" ++ child_ty ++ ">"
  | .dict key value, input, as_ref =>
      "std::collections::HashMap<" ++ to_rust_type key input as_ref ++ ", " ++
        to_rust_type value input as_ref ++ ">"
  | .struct fields, input, as_ref =>
      let fs := rust_type_fields fields input as_ref
      if fs.length > 1 then
        (if as_ref then "&" else "") ++ "(" ++ String.intercalate ", " fs ++ ")"
      else
        (if as_ref then "&" else "") ++ "(" ++ fs.headD "" ++ ",)"

/-- The field-by-field `map` inside the `Structure` arm of `to_rust_type`. -/
def rust_type_fields : List Signature → Bool → Bool → List String
  | [], _, _ => []
  | f :: rest, input, as_ref =>
      to_rust_type f input as_ref :: rust_type_fields rest input as_ref

end

/-- Embeds `zbus_xml::ArgDirection` (argument direction `in`/`out`), part of
the interface-description record of spec section 6. -/
inductive ArgDirection where
  | In
  | Out
deriving DecidableEq

/-- Modelled from the spec: `zbus_xml::Arg`, the argument record of the
interface description consumed by the code generator (spec section 6:
"methods with typed in/out arguments"); the generator reads its optional
name, its type signature and its optional direction. -/
structure Arg where
  name : Option String
  ty : Signature
  direction : Option ArgDirection

/-- True exactly on arguments whose direction is `Some(Out)`, the condition
separating outputs from inputs in `inputs_output_from_args`. -/
def isOutArg (a : Arg) : Bool :=
  match a.direction with
  | some ArgDirection.Out => true
  | _ => false

/-- The argument loop of `inputs_output_from_args` (`zbus_xmlgen/src/lib.rs`
lines 271-287): `n` is the generated-name counter (`gen_name`), the first
component collects the rendered inputs, the second the output types. -/
def ioLoop : List Arg → Nat → List String × List String
  | [], _ => ([], [])
  | a :: rest, n =>
    match a.direction with
    | none | some ArgDirection.In =>
        let ty := to_rust_type a.ty true true
        match a.name with
        | some name =>
            let r := ioLoop rest n
            ((to_identifier name ++ ": " ++ ty) :: r.1, r.2)
        | none =>
            let r := ioLoop rest (n + 1)
            (("arg_" ++ toString (n + 1) ++ ": " ++ ty) :: r.1, r.2)
    | some ArgDirection.Out =>
        let r := ioLoop rest n
        (r.1, to_rust_type a.ty false false :: r.2)

/-- Embeds `inputs_output_from_args` from `zbus_xmlgen/src/lib.rs` lines
262-296: inputs start with `&self`, the return type is `()` for zero
outputs, the bare type for one, a parenthesized tuple otherwise. -/
def inputs_output_from_args (args : List Arg) : String × String :=
  let r := ioLoop args 0
  let inputs := "&self" :: r.1
  let output :=
    match r.2 with
    | [] => "()"
    | [t] => t
    | ts => "(" ++ String.intercalate ", " ts ++ ")"
  (String.intercalate ", " inputs, " -> zbus::Result<" ++ output ++ ">")

/-- Following the claim's words: the return type placed inside
`zbus::Result` is `()` for no out-arguments, the bare Rust type for exactly
one, and a single-level parenthesized tuple for two or more. -/
def return_type_of_outputs : List String → String
  | [] => "()"
  | [t] => t
  | ts => "(" ++ String.intercalate ", " ts ++ ")"

/-- The output component of `ioLoop` is exactly the rendered types of the
`Out`-direction arguments, in order. -/
theorem ioLoop_outputs (args : List Arg) (n : Nat) :
    (ioLoop args n).2 =
      (args.filter isOutArg).map (fun a => to_rust_type a.ty false false) := by
  induction args generalizing n with
  | nil => rfl
  | cons a rest ih =>
    simp only [ioLoop]
    match h : a.direction with
    | none =>
      match hn : a.name with
      | some nm => simp [h, hn, List.filter, isOutArg, ih]
      | none => simp [h, hn, List.filter, isOutArg, ih]
    | some ArgDirection.In =>
      match hn : a.name with
      | some nm => simp [h, hn, List.filter, isOutArg, ih]
      | none => simp [h, hn, List.filter, isOutArg, ih]
    | some ArgDirection.Out => simp [h, List.filter, isOutArg, ih]

/-- The input component of `ioLoop` has one rendered entry per argument
whose direction is `in` or unspecified. -/
theorem ioLoop_inputs_length (args : List Arg) (n : Nat) :
    (ioLoop args n).1.length = (args.filter (fun a => !isOutArg a)).length := by
  induction args generalizing n with
  | nil => rfl
  | cons a rest ih =>
    simp only [ioLoop]
    match h : a.direction with
    | none =>
      match hn : a.name with
      | some nm => simp [h, hn, List.filter, isOutArg, ih]
      | none => simp [h, hn, List.filter, isOutArg, ih]
    | some ArgDirection.In =>
      match hn : a.name with
      | some nm => simp [h, hn, List.filter, isOutArg, ih]
      | none => simp [h, hn, List.filter, isOutArg, ih]
    | some ArgDirection.Out => simp [h, List.filter, isOutArg, ih]

/-- Claim C8: the generated return type inside `zbus::Result` is `()` for
zero out-arguments, the bare type for one, and a single-level parenthesized
tuple for two or more (never doubly parenthesized); `in`/unspecified
arguments become inputs (one entry each besides `&self`), `out` arguments
become outputs. -/
theorem inputs_output_from_args_spec (args : List Arg) :
    (inputs_output_from_args args).2 =
      " -> zbus::Result<" ++
        return_type_of_outputs
          ((args.filter isOutArg).map (fun a => to_rust_type a.ty false false)) ++
        ">" ∧
    (inputs_output_from_args args).1 =
      String.intercalate ", " ("&self" :: (ioLoop args 0).1) ∧
    (ioLoop args 0).1.length = (args.filter (fun a => !isOutArg a)).length := by
  refine ⟨?_, rfl, ioLoop_inputs_length args 0⟩
  simp only [inputs_output_from_args, return_type_of_outputs, ioLoop_outputs]

/-- Modelled from the spec: the read/write access of a property in the
interface description (spec section 6: "properties with read/write
access"); the generator only consults the two flags `access().read()` and
`access().write()`. -/
structure PropAccess where
  read : Bool
  write : Bool

/-- Modelled from the spec: `zbus_xml::Property`, a property of the
interface description record: a name, a type signature, and a read/write
access. -/
structure Property where
  name : String
  ty : Signature
  access : PropAccess

/-- The snake-case identifier the generator derives for a property
(`to_identifier(&to_snakecase(p.name()))`, `zbus_xmlgen/src/lib.rs` line
206). -/
def prop_fn_name (p : Property) : String :=
  to_identifier (to_snakecase p.name)

/-- The blank line `writeln!(w)?` emitted before each property block. -/
def prop_blank_line : String := ""

/-- The doc line `    /// {name} property`. -/
def prop_doc_line (p : Property) : String :=
  "    /// " ++ (p.name ++ " property")

/-- The `fn_attribute` line of `write_interface` (lines 207-211): a renaming
attribute when the pascal-cased identifier differs from the property name,
the plain property attribute otherwise. -/
def prop_attr_line (p : Property) : String :=
  if pascal_case (prop_fn_name p) ≠ p.name then
    "    #[zbus(property, name = \"" ++ (p.name ++ "\")]")
  else
    "    #[zbus(property)]"

/-- The lines emitted by `hide_clippy_type_complexity_lint` (lines 251-260):
an allow-attribute when the estimated complexity reaches 1700. -/
def lint_lines (ty : Signature) : List String :=
  if 1700 ≤ estimate_type_complexity ty then ["    #[allow(clippy::type_complexity)]"]
  else []

/-- The getter line `    fn {name}(&self) -> zbus::Result<{output}>;`
(line 219), with `output = to_rust_type(p.ty(), false, false)`. -/
def getter_line (p : Property) : String :=
  "    fn " ++ (prop_fn_name p ++
    ("(&self) -> zbus::Result<" ++ (to_rust_type p.ty false false ++ ">;")))

/-- The setter line `    fn set_{name}(&self, value: {input}) ->
zbus::Result<()>;` (lines 225-229), with `input = to_rust_type(p.ty(),
true, true)`. -/
def setter_line (p : Property) : String :=
  "    fn set_" ++ (prop_fn_name p ++
    ("(&self, value: " ++ (to_rust_type p.ty true true ++ ") -> zbus::Result<()>;")))

/-- Embeds the property loop body of `GenTrait::write_interface`
(`zbus_xmlgen/src/lib.rs` lines 205-230) for one property: a blank line and
a doc line, then — when access includes read — the attribute line, the
optional clippy lint line and the getter, then — when access includes
write — the attribute line and the setter. -/
def property_lines (p : Property) : List String :=
  prop_blank_line :: prop_doc_line p ::
    ((if p.access.read then prop_attr_line p :: (lint_lines p.ty ++ [getter_line p])
      else []) ++
     (if p.access.write then [prop_attr_line p, setter_line p] else []))

/-- Index of the first `(` in a character list (length of the list when
absent). -/
def lparenIdx (l : List Char) : Nat :=
  (l.takeWhile (fun c => c != lparenChar)).length

/-- `lparenIdx` of a `(`-free prefix followed by a list starting with `(` is
the length of the prefix. -/
theorem lparenIdx_append (pre post : List Char) (h1 : ∀ c ∈ pre, c ≠ lparenChar)
    (h2 : post.head? = some lparenChar) : lparenIdx (pre ++ post) = pre.length := by
  induction pre with
  | nil =>
    match post, h2 with
    | c :: rest, h2 =>
      have hc : c = lparenChar := by simpa using h2
      simp [lparenIdx, List.takeWhile, hc]
  | cons c rest ih =>
    have hc : c ≠ lparenChar := h1 c (List.mem_cons_self _ _)
    have hcb : (c != lparenChar) = true := by simp [hc]
    simp only [List.cons_append, lparenIdx, List.takeWhile, hcb, List.length_cons]
    have := ih (fun x hx => h1 x (List.mem_cons_of_mem _ hx))
    simp only [lparenIdx] at this
    simp only [List.append_eq]
    rw [this]

/-- Strings with different characters at index 4 are different. -/
theorem ne_of_charAt4 {s t : String} (h : s.data[4]? ≠ t.data[4]?) : s ≠ t :=
  fun he => h (he ▸ rfl)

/-- Strings whose first `(` sits at a different index are different. -/
theorem ne_of_lparenIdx {s t : String} (h : lparenIdx s.data ≠ lparenIdx t.data) :
    s ≠ t :=
  fun he => h (he ▸ rfl)

/-- Character 4 of an appended string comes from a long enough prefix. -/
theorem charAt4_append (s t : String) (h : 4 < s.data.length) :
    (s ++ t).data[4]? = s.data[4]? := by
  rw [string_data_append]
  exact List.getElem?_append_left h

/-- The getter line has `f` at index 4. -/
theorem getter_charAt4 (p : Property) :
    (getter_line p).data[4]? = some (Char.ofNat 102) := by
  rw [getter_line, charAt4_append _ _ (by decide)]
  decide

/-- The setter line has `f` at index 4. -/
theorem setter_charAt4 (p : Property) :
    (setter_line p).data[4]? = some (Char.ofNat 102) := by
  rw [setter_line, charAt4_append _ _ (by decide)]
  decide

/-- The doc line has `/` at index 4. -/
theorem doc_charAt4 (p : Property) :
    (prop_doc_line p).data[4]? = some (Char.ofNat 47) := by
  rw [prop_doc_line, charAt4_append _ _ (by decide)]
  decide

/-- Both attribute-line variants have `#` at index 4. -/
theorem attr_charAt4 (p : Property) :
    (prop_attr_line p).data[4]? = some (Char.ofNat 35) := by
  rw [prop_attr_line]
  by_cases h : pascal_case (prop_fn_name p) ≠ p.name
  · rw [if_pos h, charAt4_append _ _ (by decide)]
    decide
  · rw [if_neg h]
    decide

/-- The seven leading characters of the getter line contain no `(`. -/
theorem fn_prefix_no_lparen : ∀ c ∈ "    fn ".data, c ≠ lparenChar := by decide

/-- The eleven leading characters of the setter line contain no `(`. -/
theorem fn_set_prefix_no_lparen : ∀ c ∈ "    fn set_".data, c ≠ lparenChar := by
  decide

/-- The first `(` of the getter line sits right after `    fn {name}`. -/
theorem getter_lparenIdx (p : Property) (h : lparenChar ∉ (prop_fn_name p).data) :
    lparenIdx (getter_line p).data = 7 + (prop_fn_name p).data.length := by
  have hassoc : getter_line p =
      ("    fn " ++ prop_fn_name p) ++
        ("(&self) -> zbus::Result<" ++ (to_rust_type p.ty false false ++ ">;")) := by
    rw [getter_line, String.append_assoc]
  rw [hassoc, string_data_append, lparenIdx_append]
  · rw [string_data_append, List.length_append]
    rfl
  · rw [string_data_append]
    intro c hc
    rcases List.mem_append.mp hc with hm | hm
    · exact fn_prefix_no_lparen c hm
    · exact fun he => h (he ▸ hm)
  · rw [string_data_append,
       show ("(&self) -> zbus::Result<").data =
         lparenChar :: ("&self) -> zbus::Result<").data from by decide]
    simp

/-- The first `(` of the setter line sits right after `    fn set_{name}`. -/
theorem setter_lparenIdx (p : Property) (h : lparenChar ∉ (prop_fn_name p).data) :
    lparenIdx (setter_line p).data = 11 + (prop_fn_name p).data.length := by
  have hassoc : setter_line p =
      ("    fn set_" ++ prop_fn_name p) ++
        ("(&self, value: " ++
          (to_rust_type p.ty true true ++ ") -> zbus::Result<()>;")) := by
    rw [setter_line, String.append_assoc]
  rw [hassoc, string_data_append, lparenIdx_append]
  · rw [string_data_append, List.length_append]
    rfl
  · rw [string_data_append]
    intro c hc
    rcases List.mem_append.mp hc with hm | hm
    · exact fn_set_prefix_no_lparen c hm
    · exact fun he => h (he ▸ hm)
  · rw [string_data_append,
       show ("(&self, value: ").data =
         lparenChar :: ("&self, value: ").data from by decide]
    simp

/-- Getter and setter lines for the same property never coincide. -/
theorem getter_ne_setter (p : Property) (h : lparenChar ∉ (prop_fn_name p).data) :
    getter_line p ≠ setter_line p := by
  refine ne_of_lparenIdx ?_
  rw [getter_lparenIdx p h, setter_lparenIdx p h]
  omega

/-- Any clippy lint line has `#` at index 4. -/
theorem lint_charAt4 (ty : Signature) :
    ∀ l ∈ lint_lines ty, l.data[4]? = some (Char.ofNat 35) := by
  intro l hl
  rw [lint_lines] at hl
  split at hl
  · rw [List.mem_singleton.mp hl]
    decide
  · exact absurd hl (List.not_mem_nil l)

/-- Claim C7: the client-stub text generated for a property contains that
property's getter line if and only if its access includes read, and its
`set_`-prefixed setter line if and only if its access includes write.  The
hypothesis records that the property's generated identifier contains no
parenthesis (true of every identifier the generator derives from a D-Bus
property name). -/
theorem write_interface_property_access (p : Property)
    (h : lparenChar ∉ (prop_fn_name p).data) :
    (getter_line p ∈ property_lines p ↔ p.access.read = true) ∧
    (setter_line p ∈ property_lines p ↔ p.access.write = true) := by
  have g_b : getter_line p ≠ prop_blank_line :=
    ne_of_charAt4 (by rw [getter_charAt4]; decide)
  have g_d : getter_line p ≠ prop_doc_line p :=
    ne_of_charAt4 (by rw [getter_charAt4, doc_charAt4]; decide)
  have g_a : getter_line p ≠ prop_attr_line p :=
    ne_of_charAt4 (by rw [getter_charAt4, attr_charAt4]; decide)
  have g_s : getter_line p ≠ setter_line p := getter_ne_setter p h
  have s_b : setter_line p ≠ prop_blank_line :=
    ne_of_charAt4 (by rw [setter_charAt4]; decide)
  have s_d : setter_line p ≠ prop_doc_line p :=
    ne_of_charAt4 (by rw [setter_charAt4, doc_charAt4]; decide)
  have s_a : setter_line p ≠ prop_attr_line p :=
    ne_of_charAt4 (by rw [setter_charAt4, attr_charAt4]; decide)
  have s_g : setter_line p ≠ getter_line p := fun he => g_s he.symm
  have g_l : ∀ l ∈ lint_lines p.ty, getter_line p ≠ l := by
    intro l hl
    refine ne_of_charAt4 ?_
    rw [getter_charAt4, lint_charAt4 p.ty l hl]
    decide
  have s_l : ∀ l ∈ lint_lines p.ty, setter_line p ≠ l := by
    intro l hl
    refine ne_of_charAt4 ?_
    rw [setter_charAt4, lint_charAt4 p.ty l hl]
    decide
  refine ⟨⟨fun hmem => ?_, fun hr => ?_⟩, ⟨fun hmem => ?_, fun hw => ?_⟩⟩
  · by_contra hr
    rw [Bool.not_eq_true] at hr
    rw [property_lines, hr] at hmem
    simp only [if_false, Bool.false_eq_true, List.nil_append] at hmem
    rcases List.mem_cons.mp hmem with he | hmem
    · exact g_b he
    rcases List.mem_cons.mp hmem with he | hmem
    · exact g_d he
    cases hw : p.access.write
    · rw [hw] at hmem
      simp at hmem
    · rw [hw] at hmem
      simp only [if_true] at hmem
      rcases List.mem_cons.mp hmem with he | hmem
      · exact g_a he
      rcases List.mem_cons.mp hmem with he | hmem
      · exact g_s he
      simp at hmem
  · simp [property_lines, hr]
  · by_contra hw
    rw [Bool.not_eq_true] at hw
    rw [property_lines, hw] at hmem
    simp only [if_false, Bool.false_eq_true, List.append_nil] at hmem
    rcases List.mem_cons.mp hmem with he | hmem
    · exact s_b he
    rcases List.mem_cons.mp hmem with he | hmem
    · exact s_d he
    cases hr : p.access.read
    · rw [hr] at hmem
      simp at hmem
    · rw [hr] at hmem
      simp only [if_true] at hmem
      rcases List.mem_cons.mp hmem with he | hmem
      · exact s_a he
      rcases List.mem_append.mp hmem with hm | hm
      · exact s_l _ (by exact hm) rfl
      · rcases List.mem_singleton.mp hm with he
        exact s_g he
  · simp [property_lines, hw]

/-- A concrete read/write property used to witness C7. -/
def exampleProperty : Property :=
  ⟨"Version", Signature.str, ⟨true, true⟩⟩

/-- Witness for C7: a concrete read/write property whose generated block
contains both the getter and the setter line. -/
theorem write_interface_property_access_witness :
    lparenChar ∉ (prop_fn_name exampleProperty).data ∧
    (getter_line exampleProperty ∈ property_lines exampleProperty ↔
      exampleProperty.access.read = true) ∧
    (setter_line exampleProperty ∈ property_lines exampleProperty ↔
      exampleProperty.access.write = true) :=
  ⟨by decide, (write_interface_property_access exampleProperty (by decide)).1,
   (write_interface_property_access exampleProperty (by decide)).2⟩

/-- Modelled from the spec: the observable state of one handler invocation
dispatched by the Object Router (spec sections 4.4-4.5, 5): `running (some
k)` is an invocation that needs `k` more cooperative steps, `running none`
one that suspends forever (awaits indefinitely), `completed` a finished
invocation whose reply has been sent. -/
inductive TStat where
  | running (fuel : Option Nat)
  | completed
deriving DecidableEq

/-- One cooperative step of a single invocation: a finished computation
completes, a suspended-forever computation stays pending, others progress. -/
def stepTask : TStat → TStat
  | TStat.running (some 0) => TStat.completed
  | TStat.running (some (k + 1)) => TStat.running (some k)
  | TStat.running none => TStat.running none
  | TStat.completed => TStat.completed

/-- Modelled from the spec: one fair scheduler round (spec section 5,
"cooperative multitasking ... each incoming call dispatched to the Router
runs as an independently schedulable unit"): every invocation receives one
step; invocations never wait on each other. -/
def schedulerRound (ts : List TStat) : List TStat := ts.map stepTask

/-- `runRounds n` runs `n` fair scheduler rounds. -/
def runRounds (n : Nat) (ts : List TStat) : List TStat := schedulerRound^[n] ts

/-- Modelled from the spec: the dispatch loop's fire-and-forget handoff
(spec section 4.4): every incoming call spawns an independent task. -/
def spawnCalls (behaviors : List (Option Nat)) : List TStat :=
  behaviors.map TStat.running

/-- A scheduler round acts elementwise, so it distributes over `++`. -/
theorem schedulerRound_append (a b : List TStat) :
    schedulerRound (a ++ b) = schedulerRound a ++ schedulerRound b :=
  List.map_append stepTask a b

/-- Running rounds distributes over `++`. -/
theorem runRounds_append (n : Nat) (a b : List TStat) :
    runRounds n (a ++ b) = runRounds n a ++ runRounds n b := by
  induction n generalizing a b with
  | zero => rfl
  | succ n ih =>
    simp only [runRounds, Function.iterate_succ_apply] at ih ⊢
    rw [schedulerRound_append, ih]

/-- Running rounds acts on a cons cell componentwise. -/
theorem runRounds_cons (n : Nat) (x : TStat) (l : List TStat) :
    runRounds n (x :: l) = stepTask^[n] x :: runRounds n l := by
  induction n generalizing x l with
  | zero => rfl
  | succ n ih =>
    simp only [runRounds, Function.iterate_succ_apply] at ih ⊢
    rw [show schedulerRound (x :: l) = stepTask x :: schedulerRound l from rfl, ih]

/-- Running rounds leaves the empty task list empty. -/
theorem runRounds_nil (n : Nat) : runRounds n [] = [] := by
  induction n with
  | zero => rfl
  | succ n ih => rw [runRounds, Function.iterate_succ_apply]; exact ih

/-- An invocation needing `k` steps is completed after `k + 1` rounds. -/
theorem stepTask_completes (k : Nat) :
    stepTask^[k + 1] (TStat.running (some k)) = TStat.completed := by
  induction k with
  | zero => rfl
  | succ k ih =>
    rw [Function.iterate_succ_apply,
      show stepTask (TStat.running (some (k + 1))) = TStat.running (some k) from rfl,
      ih]

/-- An invocation that suspends forever stays pending after any number of
rounds. -/
theorem stepTask_pending (n : Nat) :
    stepTask^[n] (TStat.running none) = TStat.running none := by
  induction n with
  | zero => rfl
  | succ n ih => rw [Function.iterate_succ_apply, show stepTask (TStat.running none) =
      TStat.running none from rfl, ih]

/-- Claim C1: however many other invocations are in flight on the same
handler (including `method1`-style invocations that suspend forever, i.e.
`none` entries of `l` and `r`), an invocation whose handler finishes in `k`
steps is completed after `k + 1` fair scheduler rounds — and an invocation
that suspends forever is still pending after any number of rounds, without
ever blocking the first. -/
theorem concurrent_interface_methods (l r : List (Option Nat)) (k : Nat) :
    runRounds (k + 1) (spawnCalls (l ++ some k :: r)) =
      runRounds (k + 1) (spawnCalls l) ++
        TStat.completed :: runRounds (k + 1) (spawnCalls r) ∧
    ∀ n, runRounds n (spawnCalls [none]) = [TStat.running none] := by
  constructor
  · rw [spawnCalls, List.map_append, List.map_cons]
    rw [runRounds_append, runRounds_cons, stepTask_completes]
    rfl
  · intro n
    rw [spawnCalls, List.map_cons, List.map_nil, runRounds_cons, stepTask_pending,
      runRounds_nil]

/-- Modelled from the spec: a pending-call outcome (spec section 3,
PendingCall): a method return, a remote error, or a connection-failure
indication. -/
inductive Outcome where
  | methodReturn (body : Nat)
  | methodError (body : Nat)
  | connectionError (reason : String)
deriving DecidableEq

/-- Modelled from the spec: the Serial Registry's pending-call table (spec
section 4.3): the serial numbers that currently own an unfulfilled
pending-reply slot.  Serials are issued strictly increasing, so the table
never holds a serial twice. -/
structure SerialRegistry where
  pending : List Nat
deriving DecidableEq

/-- `register_pending(serial)`: adds a fresh pending slot. -/
def register_pending (reg : SerialRegistry) (serial : Nat) : SerialRegistry :=
  ⟨reg.pending ++ [serial]⟩

/-- `complete(serial, outcome)`: fulfils the matching pending call exactly
once and removes it; an unknown (stale/duplicate) serial is a no-op. -/
def complete (reg : SerialRegistry) (serial : Nat) (outcome : Outcome) :
    SerialRegistry × Option (Nat × Outcome) :=
  if serial ∈ reg.pending then (⟨reg.pending.erase serial⟩, some (serial, outcome))
  else (reg, none)

/-- `fail_all(reason)`: resolves every outstanding pending call with a
connection-error outcome and clears the table (spec section 4.3). -/
def fail_all (reg : SerialRegistry) (reason : String) :
    SerialRegistry × List (Nat × Outcome) :=
  (⟨[]⟩, reg.pending.map (fun s => (s, Outcome.connectionError reason)))

/-- Counting a tagged pair among tagged pairs counts the underlying
serials. -/
theorem count_map_pair (l : List Nat) (c : Outcome) (s : Nat) :
    (l.map (fun x => (x, c))).count (s, c) = l.count s := by
  induction l with
  | nil => rfl
  | cons a rest ih =>
    simp only [List.map_cons, List.count_cons, ih]
    by_cases h : a = s
    · simp [h]
    · simp [h]

/-- Claim C2: on transport loss `fail_all` resolves every outstanding
pending call exactly once with a connection-failure outcome — each pending
serial receives exactly one delivery, every delivery is a connection error
aimed at a pending serial — and the pending table is empty afterwards. -/
theorem fail_all_spec (reg : SerialRegistry) (reason : String)
    (hnd : reg.pending.Nodup) :
    (fail_all reg reason).1.pending = [] ∧
    (∀ s ∈ reg.pending,
      (fail_all reg reason).2.count (s, Outcome.connectionError reason) = 1) ∧
    (∀ d ∈ (fail_all reg reason).2,
      d.1 ∈ reg.pending ∧ d.2 = Outcome.connectionError reason) := by
  refine ⟨rfl, fun s hs => ?_, fun d hd => ?_⟩
  · rw [fail_all]
    show List.count _ _ = 1
    rw [count_map_pair]
    exact List.count_eq_one_of_mem hnd hs
  · rw [fail_all] at hd
    simp only [List.mem_map] at hd
    obtain ⟨s, hs, hed⟩ := hd
    rw [← hed]
    exact ⟨hs, rfl⟩

/-- Witness for C2: a concrete registry with three outstanding calls. -/
theorem fail_all_spec_witness :
    (SerialRegistry.mk [3, 5, 9]).pending.Nodup ∧
    ((fail_all ⟨[3, 5, 9]⟩ "socket closed").1.pending = [] ∧
     (∀ s ∈ (SerialRegistry.mk [3, 5, 9]).pending,
       (fail_all ⟨[3, 5, 9]⟩ "socket closed").2.count
         (s, Outcome.connectionError "socket closed") = 1) ∧
     (∀ d ∈ (fail_all ⟨[3, 5, 9]⟩ "socket closed").2,
       d.1 ∈ (SerialRegistry.mk [3, 5, 9]).pending ∧
       d.2 = Outcome.connectionError "socket closed")) :=
  ⟨by decide, fail_all_spec ⟨[3, 5, 9]⟩ "socket closed" (by decide)⟩

/-- Modelled from the spec: the message kinds of the data model (spec
section 3). -/
inductive MsgType where
  | methodCall
  | methodReturn
  | methodError
  | signal
deriving DecidableEq

/-- Modelled from the spec: a framed message as the dispatch loop sees it
(spec section 3): serial, kind, optional reply-serial, and the member name
used by the tests to tag messages. -/
structure Msg where
  serial : Nat
  msgType : MsgType
  replySerial : Option Nat
  member : String
deriving DecidableEq

/-- Modelled from the spec: the Dispatch Loop (spec section 4.4).  It
consumes the connection's inbox in transport order: a Return/Error whose
reply-serial matches a pending call completes that call (first component);
a stale completion is silently discarded (spec section 7f); every other
message — method calls and signals included — is forwarded to the message
stream (second component).  The inbox already contains everything sent
before the loop started, because the transport queues frames until they
are read. -/
def dispatchLoop : List Msg → List Nat → List (Nat × Msg) × List Msg
  | [], _ => ([], [])
  | m :: rest, pending =>
    match m.msgType, m.replySerial with
    | MsgType.methodReturn, some rs =>
      if rs ∈ pending then
        let r := dispatchLoop rest (pending.erase rs)
        ((rs, m) :: r.1, r.2)
      else dispatchLoop rest pending
    | MsgType.methodError, some rs =>
      if rs ∈ pending then
        let r := dispatchLoop rest (pending.erase rs)
        ((rs, m) :: r.1, r.2)
      else dispatchLoop rest pending
    | _, _ =>
      let r := dispatchLoop rest pending
      (r.1, m :: r.2)

/-- Claim C5: any method-call message present in the inbox — in particular
one sent before the receiving endpoint began reading — is yielded by the
endpoint's message stream once the dispatch loop runs, whatever pending
calls (e.g. an unrelated blocking method call) are in flight. -/
theorem dispatch_delivers_sent_before (inbox : List Msg) (pending : List Nat)
    (m : Msg) (hmem : m ∈ inbox) (hkind : m.msgType = MsgType.methodCall) :
    m ∈ (dispatchLoop inbox pending).2 := by
  induction inbox generalizing pending with
  | nil => cases hmem
  | cons a rest ih =>
    rcases List.mem_cons.mp hmem with he | hm
    · subst he
      rw [dispatchLoop, hkind]
      exact List.mem_cons_self _ _
    · rw [dispatchLoop]
      match ht : a.msgType, hr : a.replySerial with
      | MsgType.methodReturn, some rs =>
        by_cases hp : rs ∈ pending
        · simp only [if_pos hp]
          exact ih (pending.erase rs) hm
        · simp only [if_neg hp]
          exact ih pending hm
      | MsgType.methodError, some rs =>
        by_cases hp : rs ∈ pending
        · simp only [if_pos hp]
          exact ih (pending.erase rs) hm
        · simp only [if_neg hp]
          exact ih pending hm
      | MsgType.methodReturn, none => exact List.mem_cons_of_mem _ (ih pending hm)
      | MsgType.methodError, none => exact List.mem_cons_of_mem _ (ih pending hm)
      | MsgType.methodCall, _ => exact List.mem_cons_of_mem _ (ih pending hm)
      | MsgType.signal, _ => exact List.mem_cons_of_mem _ (ih pending hm)

/-- Witness for C5: a tagged call sent before the stream is read is yielded
even while another call's reply is pending. -/
theorem dispatch_delivers_sent_before_witness :
    (Msg.mk 7 MsgType.methodCall none "ZBusIssue122") ∈
        [Msg.mk 7 MsgType.methodCall none "ZBusIssue122",
         Msg.mk 9 MsgType.methodReturn (some 4) ""] ∧
    (Msg.mk 7 MsgType.methodCall none "ZBusIssue122").msgType = MsgType.methodCall ∧
    (Msg.mk 7 MsgType.methodCall none "ZBusIssue122") ∈
      (dispatchLoop
        [Msg.mk 7 MsgType.methodCall none "ZBusIssue122",
         Msg.mk 9 MsgType.methodReturn (some 4) ""]
        [4]).2 :=
  ⟨by decide, by decide,
   dispatch_delivers_sent_before _ [4] _ (by decide) (by decide)⟩

/-- Modelled from the spec: the Name-Ownership Tracker's table (spec
section 4.6): each tracked bus name maps to its current unique owner (or
none). -/
def lookupOwner : List (String × Option String) → String → Option (Option String)
  | [], _ => none
  | (n, o) :: rest, name => if n = name then some o else lookupOwner rest name

/-- Atomically swaps the ownership record for `name` (creating it when the
name was not tracked yet). -/
def updateOwner : List (String × Option String) → String → Option String →
    List (String × Option String)
  | [], name, newOwner => [(name, newOwner)]
  | (n, o) :: rest, name, newOwner =>
    if n = name then (n, newOwner) :: rest
    else (n, o) :: updateOwner rest name newOwner

/-- Modelled from the spec: a signal subscription keyed by a well-known bus
name (spec section 4.6), for a given signal member. -/
structure Subscription where
  busName : String
  member : String

/-- Modelled from the spec: an incoming signal message, carrying the unique
name of its sender. -/
structure SigMsg where
  sender : String
  member : String
deriving DecidableEq

/-- A signal matches a name-keyed subscription when its sender is the
current unique owner of the subscribed name (spec section 4.6: ownership
records are "consulted when filtering incoming signals from a named
peer"). -/
def sigMatches (t : List (String × Option String)) (sub : Subscription)
    (sg : SigMsg) : Bool :=
  match lookupOwner t sub.busName with
  | some (some u) => u == sg.sender && sub.member == sg.member
  | _ => false

/-- Modelled from the spec: the two bus events the tracker cares about —
an ownership-change notification and an emitted signal. -/
inductive BusEvent where
  | nameOwnerChanged (name : String) (oldOwner newOwner : Option String)
  | sigEmitted (sg : SigMsg)

/-- Processes a stream of bus events against one subscription: ownership
changes for tracked names swap the record, matching signals are delivered
to the subscriber. -/
def processEvents (t : List (String × Option String)) (sub : Subscription) :
    List BusEvent → List (String × Option String) × List SigMsg
  | [] => (t, [])
  | BusEvent.nameOwnerChanged name _ newOwner :: rest =>
    let t2 := if (lookupOwner t name).isSome then updateOwner t name newOwner else t
    processEvents t2 sub rest
  | BusEvent.sigEmitted sg :: rest =>
    let r := processEvents t sub rest
    (r.1, if sigMatches t sub sg then sg :: r.2 else r.2)

/-- After swapping a record, the lookup returns the new owner. -/
theorem lookupOwner_updateOwner (t : List (String × Option String))
    (name : String) (newOwner : Option String) :
    lookupOwner (updateOwner t name newOwner) name = some newOwner := by
  induction t with
  | nil => simp [updateOwner, lookupOwner]
  | cons p rest ih =>
    obtain ⟨n, o⟩ := p
    by_cases h : n = name
    · simp [updateOwner, lookupOwner, h]
    · simp [updateOwner, lookupOwner, h, ih]

/-- Claim C4: a subscription keyed by a well-known name follows the name
across owner changes.  First conjunct: the test scenario — the first owner
`A` emits the subscribed signal, releases the name, a second connection
`B` acquires it and emits again; the subscriber receives both signals.
Second conjunct: in general, after the tracker records a new owner, any
signal from that owner with the subscribed member matches — the
subscription never silently stops matching because the unique identity
behind the name changed. -/
theorem issue173_ownership (A B nm mem : String) :
    (processEvents [(nm, some A)] ⟨nm, mem⟩
        [BusEvent.sigEmitted ⟨A, mem⟩,
         BusEvent.nameOwnerChanged nm (some A) none,
         BusEvent.nameOwnerChanged nm none (some B),
         BusEvent.sigEmitted ⟨B, mem⟩]).2 = [⟨A, mem⟩, ⟨B, mem⟩] ∧
    (∀ (t : List (String × Option String)) (sub : Subscription) (sg : SigMsg),
      sg.sender = B → sg.member = sub.member →
      sigMatches (updateOwner t sub.busName (some B)) sub sg = true) := by
  constructor
  · simp [processEvents, sigMatches, lookupOwner, updateOwner]
  · intro t sub sg hsender hmem
    rw [sigMatches, lookupOwner_updateOwner, hsender, hmem]
    simp

/-- Witness for C4: the new owner's signal matches after the hand-off. -/
theorem issue173_ownership_witness :
    (SigMsg.mk ":1.2" "TheSignal").sender = ":1.2" ∧
    (SigMsg.mk ":1.2" "TheSignal").member =
      (Subscription.mk "org.freedesktop.zbus.ComeAndGo" "TheSignal").member ∧
    sigMatches
      (updateOwner [("org.freedesktop.zbus.ComeAndGo", some ":1.1")]
        (Subscription.mk "org.freedesktop.zbus.ComeAndGo" "TheSignal").busName
        (some ":1.2"))
      (Subscription.mk "org.freedesktop.zbus.ComeAndGo" "TheSignal")
      (SigMsg.mk ":1.2" "TheSignal") = true :=
  ⟨rfl, rfl,
   (issue173_ownership ":1.1" ":1.2" "org.freedesktop.zbus.ComeAndGo" "TheSignal").2
     [("org.freedesktop.zbus.ComeAndGo", some ":1.1")]
     (Subscription.mk "org.freedesktop.zbus.ComeAndGo" "TheSignal")
     (SigMsg.mk ":1.2" "TheSignal") rfl rfl⟩

/-- Modelled from the spec: the textual handshake commands of spec section
6 (identity proof, FD-capability negotiation, mode switch). -/
inductive HsCmd where
  | auth (token : String)
  | negotiateUnixFd
  | begin
deriving DecidableEq

/-- Modelled from the spec: one parsed unit of the incoming byte stream
(spec section 9, two-phase parser): a handshake line before the mode
switch, or a binary message (identified by `id`, owning `numFds` attached
descriptors) after it. -/
inductive HsItem where
  | line (cmd : HsCmd)
  | binMsg (id : Nat) (numFds : Nat)

/-- Modelled from the spec: a received transport chunk — bytes (already
split into items) plus the file descriptors that arrived attached to it
(spec section 4.1). -/
structure Chunk where
  items : List HsItem
  fds : List Nat

/-- The server-side handshake phases (spec section 4.2): awaiting the
identity line, awaiting the mode switch, streaming binary messages. -/
inductive HsPhase where
  | waitingAuth
  | waitingBegin
  | streaming
deriving DecidableEq

/-- Modelled from the spec: processing one parsed item (spec sections 4.2
and 9).  Handshake lines advance the phase machine; after `begin`, each
binary message takes its declared number of descriptors from the front of
the transitional FD buffer; anything out of order rejects the handshake. -/
def processItem (ph : HsPhase) (neg : Bool) (buf : List Nat)
    (msgs : List (Nat × List Nat)) :
    HsItem → Except String (HsPhase × Bool × List Nat × List (Nat × List Nat))
  | HsItem.line (HsCmd.auth _) =>
    if ph = HsPhase.waitingAuth then Except.ok (HsPhase.waitingBegin, neg, buf, msgs)
    else Except.error "unexpected AUTH"
  | HsItem.line HsCmd.negotiateUnixFd =>
    if ph = HsPhase.waitingBegin then Except.ok (HsPhase.waitingBegin, true, buf, msgs)
    else Except.error "unexpected NEGOTIATE_UNIX_FD"
  | HsItem.line HsCmd.begin =>
    if ph = HsPhase.waitingBegin then Except.ok (HsPhase.streaming, neg, buf, msgs)
    else Except.error "unexpected BEGIN"
  | HsItem.binMsg id n =>
    if ph = HsPhase.streaming then
      if n ≤ buf.length then
        Except.ok (HsPhase.streaming, neg, buf.drop n, msgs ++ [(id, buf.take n)])
      else Except.error "missing file descriptors"
    else Except.error "unexpected binary data during handshake"

/-- Processes the items of one chunk in order, propagating rejection. -/
def processItems (ph : HsPhase) (neg : Bool) (buf : List Nat)
    (msgs : List (Nat × List Nat)) :
    List HsItem → Except String (HsPhase × Bool × List Nat × List (Nat × List Nat))
  | [] => Except.ok (ph, neg, buf, msgs)
  | it :: rest =>
    match processItem ph neg buf msgs it with
    | Except.ok (ph2, neg2, buf2, msgs2) => processItems ph2 neg2 buf2 msgs2 rest
    | Except.error e => Except.error e

/-- Runs the server handshake over the received chunks.  The descriptors of
each chunk are appended to the transitional buffer the moment the chunk
arrives — even while the handshake phase machine has not yet observed the
mode switch — instead of being rejected (spec section 4.2). -/
def serverHandshakeGo (ph : HsPhase) (neg : Bool) (buf : List Nat)
    (msgs : List (Nat × List Nat)) :
    List Chunk → Except String (List (Nat × List Nat))
  | [] => Except.ok msgs
  | c :: rest =>
    match processItems ph neg (buf ++ c.fds) msgs c.items with
    | Except.ok (ph2, neg2, buf2, msgs2) => serverHandshakeGo ph2 neg2 buf2 msgs2 rest
    | Except.error e => Except.error e

/-- The server-side handshake: starts awaiting the identity line with an
empty FD buffer and no parsed messages. -/
def serverHandshake (chunks : List Chunk) : Except String (List (Nat × List Nat)) :=
  serverHandshakeGo HsPhase.waitingAuth false [] [] chunks

/-- Claim C3: descriptors sent in one chunk together with the handshake
commands — i.e. arriving before the handshake state machine has observed
the mode switch — are not rejected or dropped: for any two descriptor
lists `l1` and `l2` attached for two binary messages following `BEGIN`,
the handshake accepts the session and attributes `l1` to the first message
and `l2` to the second.  In particular two single descriptors sent
back-to-back arrive intact, each attributed to its own message. -/
theorem issue813_fds_buffered (tok : String) (m1 m2 : Nat) (l1 l2 : List Nat) :
    serverHandshake
      [⟨[HsItem.line (HsCmd.auth tok), HsItem.line HsCmd.negotiateUnixFd,
         HsItem.line HsCmd.begin, HsItem.binMsg m1 l1.length,
         HsItem.binMsg m2 l2.length], l1 ++ l2⟩] =
      Except.ok [(m1, l1), (m2, l2)] := by
  have h1 : l1.length ≤ (l1 ++ l2).length := by
    rw [List.length_append]; omega
  simp [serverHandshake, serverHandshakeGo, processItems, processItem, h1,
    List.take_left, List.drop_left]

/-- Packs a state of the property-notification system (spec sections 4.5
and 9: emitter task, subscriber task, a read/write lock on the property's
storage, a changed-notification flag and an acknowledgement flag) into a
single natural number.  Field ranges: emitter pc < 8, reader pc < 4,
iteration ≤ 10, readers ≤ 2, and three booleans. -/
def mkSt (pcE pcR i rd wr ch ak : Nat) : Nat :=
  pcE + 8 * (pcR + 4 * (i + 11 * (rd + 3 * (wr + 2 * (ch + 2 * ak)))))

/-- Emitter program counter: 0 acquire shared lock, 1 emit invalidation,
2 emit changed notice, 3 release shared lock, 4 await subscriber ack,
5 acquire exclusive lock, 6 update and release, 7 done. -/
def stPcE (s : Nat) : Nat := s % 8

/-- Reader program counter: 0 await changed notice, 1 acquire shared lock,
2 re-read the property and release, 3 acknowledge. -/
def stPcR (s : Nat) : Nat := s / 8 % 4

/-- Completed emitter iterations (the test requires 10). -/
def stIter (s : Nat) : Nat := s / 32 % 11

/-- Number of shared (read) holders of the property's storage. -/
def stReaders (s : Nat) : Nat := s / 352 % 3

/-- Whether the exclusive (write) lock is held. -/
def stWriter (s : Nat) : Nat := s / 1056 % 2

/-- Whether a changed-value notice is pending for the subscriber. -/
def stChanged (s : Nat) : Nat := s / 2112 % 2

/-- Whether the subscriber's acknowledgement is pending for the emitter. -/
def stAck (s : Nat) : Nat := s / 4224 % 2

/-- Modelled from the spec: the interleaving semantics of the property
invalidate-then-changed scenario of `issue_310` under the ordering rule of
spec section 4.5 — the emitter emits the invalidation and changed notices
under at most a shared hold, releases it, and only re-acquires exclusive
access to update its state after the subscriber acknowledged; the
subscriber re-reads the property (shared lock) upon each changed notice.
`step310 s` lists every successor of state `s` (emitter moves, then reader
moves); a lock acquisition blocked by the lock's state contributes no
successor. -/
def step310 (s : Nat) : List Nat :=
  let pcE := stPcE s
  let pcR := stPcR s
  let i := stIter s
  let rd := stReaders s
  let wr := stWriter s
  let ch := stChanged s
  let ak := stAck s
  (if pcE = 0 then (if wr = 0 then [mkSt 1 pcR i (rd + 1) wr ch ak] else [])
   else if pcE = 1 then [mkSt 2 pcR i rd wr ch ak]
   else if pcE = 2 then [mkSt 3 pcR i rd wr 1 ak]
   else if pcE = 3 then [mkSt 4 pcR i (rd - 1) wr ch ak]
   else if pcE = 4 then (if ak = 1 then [mkSt 5 pcR i rd wr ch 0] else [])
   else if pcE = 5 then
     (if rd = 0 ∧ wr = 0 then [mkSt 6 pcR i rd 1 ch ak] else [])
   else if pcE = 6 then
     (if i + 1 = 10 then [mkSt 7 pcR 10 rd 0 ch ak]
      else [mkSt 0 pcR (i + 1) rd 0 ch ak])
   else []) ++
  (if pcR = 0 then (if ch = 1 then [mkSt pcE 1 i rd wr 0 ak] else [])
   else if pcR = 1 then (if wr = 0 then [mkSt pcE 2 i (rd + 1) wr ch ak] else [])
   else if pcR = 2 then [mkSt pcE 3 i (rd - 1) wr ch ak]
   else [mkSt pcE 0 i rd wr ch 1])

/-- Bounded breadth-first exploration of the state space. -/
def bfs310 : Nat → List Nat → List Nat → List Nat
  | 0, _, acc => acc
  | _ + 1, [], acc => acc
  | fuel + 1, s :: todo, acc =>
    if s ∈ acc then bfs310 fuel todo acc
    else bfs310 fuel (step310 s ++ todo) (s :: acc)

/-- The initial state: both tasks at their loop heads, no locks held, no
notification pending, no iteration completed. -/
def init310 : Nat := mkSt 0 0 0 0 0 0 0

/-- All states reachable from `init310` (the fuel is ample: the theorem
below checks the set is closed under `step310`). -/
def reachable310 : List Nat := bfs310 1000 [init310] []

/-- A scheduling measure that every transition strictly increases; since it
is bounded on the (finite, closed) reachable set, every maximal execution
terminates, and by deadlock-freedom it can only terminate in a state whose
emitter has completed its 10 iterations. -/
def measure310 (s : Nat) : Nat :=
  1000 * stIter s + 50 * stPcE s + 10 * stPcR s + 5 * stChanged s +
    40 * stAck s + stReaders s + stWriter s

set_option maxRecDepth 8192 in
/-- Claim C6: in the invalidate-then-changed scenario, (1) the initial
state is explored and (2) the explored set is closed under `step310`, so
it contains every reachable state; (3) the state in which the emitter has
completed all 10 iterations is reached; (4) no reachable state other than
completion is deadlocked — some task always has an enabled move while the
subscriber concurrently re-reads the invalidated value; (5) the
changed-value notice is only ever emitted while the emitter holds no
exclusive lock; and (6) every transition strictly increases a bounded
measure, so every maximal interleaving — not just one lucky schedule —
runs to completion of the 10 iterations without deadlocking. -/
theorem issue310_property_notification :
    init310 ∈ reachable310 ∧
    (∀ s ∈ reachable310, ∀ t ∈ step310 s, t ∈ reachable310) ∧
    (∃ s ∈ reachable310, stPcE s = 7 ∧ stIter s = 10) ∧
    (∀ s ∈ reachable310, stPcE s ≠ 7 → step310 s ≠ []) ∧
    (∀ s ∈ reachable310, stPcE s = 2 → stWriter s = 0) ∧
    (∀ s ∈ reachable310, ∀ t ∈ step310 s, measure310 s < measure310 t) := by
  decide
